import Mathlib

/-!
Verification development for the historical market-data pipeline of this
repository (Binance download / reconciliation / Lean-format writing).

The definitions below are a shallow embedding of the Python sources:

* `scripts/lean_playground/lean_writer.py`   — `Resolution`, `AssetClass`,
  `BarData`, `LeanDataWriter.write_bars` and its helpers;
* `scripts/lean_playground/binance_client.py` — `KLINE_INTERVALS`,
  `download_klines` (paging loop), `download_from_archive` (interface only),
  `download_range_from_archive` (range reconciler);
* `scripts/lean_playground/download.py`       — `download_data` control flow.

Modelling conventions:

* Python `datetime.datetime` (naive, UTC) is modelled by `DateTime`:
  a calendar `Date` (year/month/day) plus the milliseconds elapsed since
  midnight.  Python compares datetimes lexicographically by field, which is
  exactly the lexicographic order defined here.  `timedelta(days=1)` is
  `Date.nextDay`, and the source's month-advance idiom
  `(d.replace(day=28) + timedelta(days=4)).replace(day=1)` is `Date.pyNextMonth`.
* Prices and volumes (Python floats used only for equality tests and
  pass-through) are modelled as `Rat`.
* Network effects are environments: an archive environment mapping
  `(year, month, optional day)` to the parsed bar list of that bulk file
  (empty list for 404 / malformed data, as in `download_from_archive`), and
  an API environment mapping a requested window to the bar list returned by
  `download_klines`.  The trading symbol is threaded through the Python code
  unchanged and is fixed inside an environment, so it is not a parameter here.
* Every remote request the reconciler issues is recorded in a `Req` trace in
  issue order, so "how many requests" claims are claims about the trace.
* `list.sort` in Python is a stable sort; any two stable sorts of the same
  list under the same key agree elementwise, so it is modelled by
  `List.insertionSort` (structural, hence computable by the kernel).
* Python `while` loops over dates are modelled with an explicit fuel that is
  computed from the calendar distance between the loop bounds
  (`Date.ord` / `Date.monthIdx`); for valid dates the fuel equals the exact
  number of iterations of the source loop.
-/

/-- Calendar date, mirroring the date fields of a Python `datetime`. -/
structure Date where
  year : Nat
  month : Nat
  day : Nat
deriving DecidableEq, Repr

/-- Python datetime comparison is lexicographic on the fields. -/
def Date.lt (a b : Date) : Prop :=
  a.year < b.year ∨ (a.year = b.year ∧
    (a.month < b.month ∨ (a.month = b.month ∧ a.day < b.day)))

/-- Python datetime comparison is lexicographic on the fields. -/
def Date.le (a b : Date) : Prop :=
  a.year < b.year ∨ (a.year = b.year ∧
    (a.month < b.month ∨ (a.month = b.month ∧ a.day ≤ b.day)))

instance (a b : Date) : Decidable (Date.lt a b) := by unfold Date.lt; infer_instance

instance (a b : Date) : Decidable (Date.le a b) := by unfold Date.le; infer_instance

/-- Gregorian leap-year rule, as in Python's `calendar`/`datetime`. -/
def isLeapYear (y : Nat) : Bool :=
  y % 4 == 0 && (y % 100 != 0 || y % 400 == 0)

/-- Number of days in a month (1-12) of a given year. -/
def daysInMonth (y m : Nat) : Nat :=
  if m = 2 then (if isLeapYear y then 29 else 28)
  else if m = 4 ∨ m = 6 ∨ m = 9 ∨ m = 11 then 30
  else 31

/-- `d + timedelta(days=1)` for a valid Gregorian date. -/
def Date.nextDay (d : Date) : Date :=
  if d.day + 1 ≤ daysInMonth d.year d.month then ⟨d.year, d.month, d.day + 1⟩
  else if d.month + 1 ≤ 12 then ⟨d.year, d.month + 1, 1⟩
  else ⟨d.year + 1, 1, 1⟩

/-- `d + timedelta(days=n)`. -/
def Date.addDays (d : Date) : Nat → Date
  | 0 => d
  | n + 1 => d.nextDay.addDays n

/-- `d.replace(day=1)`. -/
def Date.firstOfMonth (d : Date) : Date := ⟨d.year, d.month, 1⟩

/-- The source's month-advance idiom:
`(d.replace(day=28) + timedelta(days=4)).replace(day=1)`. -/
def Date.pyNextMonth (d : Date) : Date :=
  let j := Date.addDays ⟨d.year, d.month, 28⟩ 4
  ⟨j.year, j.month, 1⟩

/-- Linearised month counter, used to size the monthly loop fuel. -/
def Date.monthIdx (d : Date) : Nat := 12 * d.year + d.month

/-- Days strictly before month `m` (1-based) in year `y`. -/
def daysBeforeMonth (y : Nat) : Nat → Nat
  | 0 => 0
  | m + 1 => if m = 0 then 0 else daysBeforeMonth y m + daysInMonth y m

/-- Days strictly before January 1 of year `y` (proleptic Gregorian). -/
def daysBeforeYear (y : Nat) : Nat :=
  365 * (y - 1) + (y - 1) / 4 - (y - 1) / 100 + (y - 1) / 400

/-- Proleptic Gregorian ordinal of a date (like Python's `date.toordinal`);
used to size the daily loop fuel. -/
def Date.ord (d : Date) : Nat :=
  daysBeforeYear d.year + daysBeforeMonth d.year d.month + d.day

/-- A date whose fields satisfy the Gregorian constraints; every Python
`datetime` object satisfies this. -/
def Date.Valid (d : Date) : Prop :=
  1 ≤ d.year ∧ 1 ≤ d.month ∧ d.month ≤ 12 ∧ 1 ≤ d.day ∧ d.day ≤ daysInMonth d.year d.month

instance (d : Date) : Decidable d.Valid := by unfold Date.Valid; infer_instance

/-- Python naive `datetime`: calendar date plus milliseconds since midnight.
(Python stores microseconds; every timestamp this pipeline constructs is
millisecond-valued, and the order embedding is the same.) -/
structure DateTime where
  date : Date
  msOfDay : Nat
deriving DecidableEq, Repr

/-- Lexicographic comparison, as Python compares datetimes. -/
def DateTime.lt (a b : DateTime) : Prop :=
  Date.lt a.date b.date ∨ (a.date = b.date ∧ a.msOfDay < b.msOfDay)

/-- Lexicographic comparison, as Python compares datetimes. -/
def DateTime.le (a b : DateTime) : Prop :=
  Date.lt a.date b.date ∨ (a.date = b.date ∧ a.msOfDay ≤ b.msOfDay)

instance (a b : DateTime) : Decidable (DateTime.lt a b) := by
  unfold DateTime.lt; infer_instance

instance (a b : DateTime) : Decidable (DateTime.le a b) := by
  unfold DateTime.le; infer_instance

/-- `t.replace(hour=0, minute=0, second=0, microsecond=0)`, as a `Date`. -/
def DateTime.floorDate (t : DateTime) : Date := t.date

/-- The midnight datetime of a date. -/
def DateTime.midnightOf (d : Date) : DateTime := ⟨d, 0⟩

/-- OHLCV bar, mirroring `lean_writer.BarData`.  The Python field `open` is
a Lean keyword, hence `open_`. -/
structure BarData where
  timestamp : DateTime
  open_ : Rat
  high : Rat
  low : Rat
  close : Rat
  volume : Rat
deriving DecidableEq, Repr

/-- `lean_writer.Resolution`. -/
inductive Resolution where
  | TICK
  | SECOND
  | MINUTE
  | HOUR
  | DAILY
deriving DecidableEq, Repr

/-- The `value` string of each `Resolution` enum member. -/
def Resolution.value : Resolution → String
  | .TICK => "tick"
  | .SECOND => "second"
  | .MINUTE => "minute"
  | .HOUR => "hour"
  | .DAILY => "daily"

/-- The interval-to-resolution dictionary inside `Resolution.from_interval`. -/
def intervalResolutionMap : List (String × Resolution) :=
  [("1s", .SECOND),
   ("1m", .MINUTE), ("3m", .MINUTE), ("5m", .MINUTE), ("15m", .MINUTE), ("30m", .MINUTE),
   ("1h", .HOUR), ("2h", .HOUR), ("4h", .HOUR), ("6h", .HOUR), ("8h", .HOUR), ("12h", .HOUR),
   ("1d", .DAILY), ("3d", .DAILY), ("1w", .DAILY), ("1M", .DAILY)]

/-- `Resolution.from_interval`: dictionary lookup, raising
`ValueError(f"Unsupported interval: ...")` on a missing key (modelled as
`Except.error`). -/
def Resolution.from_interval (interval : String) : Except String Resolution :=
  match intervalResolutionMap.lookup interval with
  | some r => Except.ok r
  | none => Except.error ("Unsupported interval: " ++ interval)

/-- `lean_writer.AssetClass`. -/
inductive AssetClass where
  | CRYPTO
  | CRYPTO_FUTURE
deriving DecidableEq, Repr

/-- The `value` string of each `AssetClass` enum member. -/
def AssetClass.value : AssetClass → String
  | .CRYPTO => "crypto"
  | .CRYPTO_FUTURE => "cryptofuture"

/-- Keys of `binance_client.KLINE_INTERVALS` (the dictionary maps every key
to itself, so the key list carries all its information). -/
def KLINE_INTERVALS : List String :=
  ["1s", "1m", "3m", "5m", "15m", "30m",
   "1h", "2h", "4h", "6h", "8h", "12h", "1d", "3d", "1w", "1M"]

/-- Generic association-list fact used to settle unsupported intervals:
a lookup misses exactly when the key is not among the stored keys. -/
theorem lookup_eq_none_iff_not_mem_keys {α : Type} [DecidableEq String]
    (l : List (String × α)) (a : String) :
    l.lookup a = none ↔ a ∉ l.map Prod.fst := by
  induction l with
  | nil => simp [List.lookup]
  | cons p rest ih =>
    rcases p with ⟨k, v⟩
    by_cases h : a = k
    · subst h
      simp [List.lookup]
    · have hb : (a == k) = false := beq_false_of_ne h
      simp [List.lookup, hb, ih, h]

/-! ## Lean-format writer (`lean_writer.LeanDataWriter`) -/

/-- ASCII lowercasing of one character, as Python `str.lower` acts on the
ASCII symbols/markets this pipeline handles. -/
def charLower (c : Char) : Char :=
  if 65 ≤ c.toNat ∧ c.toNat ≤ 90 then Char.ofNat (c.toNat + 32) else c

/-- Python `str.lower()`. -/
def strLower (s : String) : String := ⟨s.data.map charLower⟩

/-- Zero-padded two-digit rendering (`%m`, `%d`, `%H`, `%M`). -/
def pad2 (n : Nat) : String := if n < 10 then "0" ++ toString n else toString n

/-- Zero-padded four-digit rendering (`%Y` for the 4-digit years the data
pipeline deals in). -/
def pad4 (n : Nat) : String :=
  if n < 10 then "000" ++ toString n
  else if n < 100 then "00" ++ toString n
  else if n < 1000 then "0" ++ toString n
  else toString n

/-- `strftime("%Y%m%d")` of a date. -/
def Date.ymd (d : Date) : String := pad4 d.year ++ pad2 d.month ++ pad2 d.day

/-- `timestamp.strftime("%Y%m%d")`. -/
def DateTime.strfYMD (t : DateTime) : String := t.date.ymd

/-- `timestamp.strftime("%Y%m%d %H:%M")`. -/
def DateTime.strfYMDHM (t : DateTime) : String :=
  t.date.ymd ++ " " ++ pad2 (t.msOfDay / 3600000) ++ ":" ++ pad2 (t.msOfDay % 3600000 / 60000)

/-- Timestamp order on bars, the sort key `lambda b: b.timestamp`. -/
def barTsLe (a b : BarData) : Prop := DateTime.le a.timestamp b.timestamp

instance (a b : BarData) : Decidable (barTsLe a b) := by unfold barTsLe; infer_instance

/-- Python's stable `list.sort(key=lambda b: b.timestamp)`.  Any two stable
sorts under the same key coincide, so the structural insertion sort is an
exact model of Timsort here. -/
def sortBarsByTs (l : List BarData) : List BarData :=
  List.insertionSort barTsLe l

/-- Numeric CSV cell.  (Python prints floats; the textual rendering of the
numeric carrier is not load-bearing for any claim.) -/
def ratCsv (q : Rat) : String := toString q

/-- One row of `_format_intraday_csv` (csv.writer's default line ending). -/
def intradayRow (b : BarData) : String :=
  toString b.timestamp.msOfDay ++ "," ++ ratCsv b.open_ ++ "," ++ ratCsv b.high ++ "," ++
    ratCsv b.low ++ "," ++ ratCsv b.close ++ "," ++ ratCsv b.volume ++ "\r\n"

/-- `LeanDataWriter._format_intraday_csv`. -/
def format_intraday_csv (bars : List BarData) : String :=
  String.join ((sortBarsByTs bars).map intradayRow)

/-- One row of `_format_aggregated_csv`. -/
def aggregatedRow (b : BarData) : String :=
  b.timestamp.strfYMDHM ++ "," ++ ratCsv b.open_ ++ "," ++ ratCsv b.high ++ "," ++
    ratCsv b.low ++ "," ++ ratCsv b.close ++ "," ++ ratCsv b.volume ++ "\r\n"

/-- `LeanDataWriter._format_aggregated_csv`. -/
def format_aggregated_csv (bars : List BarData) : String :=
  String.join ((sortBarsByTs bars).map aggregatedRow)

/-- The durable output state: path of a zip file ↦ (inner csv name, csv
content).  `_write_zip` opens the zip in mode "w", replacing any previous
file at that path in full. -/
def FileStore : Type := String → Option (String × String)

/-- `LeanDataWriter._write_zip`. -/
def write_zip (fs : FileStore) (zip_path csv_name csv_content : String) : FileStore :=
  fun p => if p = zip_path then some (csv_name, csv_content) else fs p

/-- One `daily_bars[date_str].append(bar)` step of the `defaultdict(list)`
grouping in `_write_intraday_bars`; Python dicts preserve first-insertion
order of keys. -/
def insertGrouped (k : String) (b : BarData) :
    List (String × List BarData) → List (String × List BarData)
  | [] => [(k, [b])]
  | (k1, bs) :: rest =>
    if k1 = k then (k1, bs ++ [b]) :: rest else (k1, bs) :: insertGrouped k b rest

/-- The date grouping of `_write_intraday_bars`. -/
def groupBarsByDate (bars : List BarData) : List (String × List BarData) :=
  bars.foldl (fun acc b => insertGrouped (DateTime.strfYMD b.timestamp) b acc) []

/-- First-seen-order distinct keys of a key list; equals the key sequence of
the Python dict produced by the grouping (see `groupBarsByDate_keys`). -/
def firstKeys (l : List String) : List String :=
  l.foldl (fun acc k => if k ∈ acc then acc else acc ++ [k]) []

/-- The per-date write loop of `_write_intraday_bars`. -/
def writeIntradayGroups (dataDir symbol market : String) (res : Resolution)
    (ac : AssetClass) (fs : FileStore) :
    List (String × List BarData) → List String × FileStore
  | [] => ([], fs)
  | (dateStr, dayBars) :: rest =>
    let outputDir := dataDir ++ "/" ++ ac.value ++ "/" ++ market ++ "/" ++ res.value ++ "/" ++ symbol
    let zipPath := outputDir ++ "/" ++ dateStr ++ "_trade.zip"
    let csvName := dateStr ++ "_" ++ symbol ++ "_" ++ res.value ++ "_trade.csv"
    let fs1 := write_zip fs zipPath csvName (format_intraday_csv dayBars)
    let rec1 := writeIntradayGroups dataDir symbol market res ac fs1 rest
    (zipPath :: rec1.1, rec1.2)

/-- `LeanDataWriter._write_intraday_bars` (symbol/market already lowered). -/
def write_intraday_bars (dataDir : String) (fs : FileStore) (bars : List BarData)
    (symbol market : String) (res : Resolution) (ac : AssetClass) :
    List String × FileStore :=
  writeIntradayGroups dataDir symbol market res ac fs (groupBarsByDate bars)

/-- The single output path of `_write_aggregated_bars`. -/
def aggregatedZipPath (dataDir symbol market : String) (res : Resolution)
    (ac : AssetClass) : String :=
  dataDir ++ "/" ++ ac.value ++ "/" ++ market ++ "/" ++ res.value ++ "/" ++ symbol ++ "_trade.zip"

/-- `LeanDataWriter._write_aggregated_bars` (symbol/market already lowered). -/
def write_aggregated_bars (dataDir : String) (fs : FileStore) (bars : List BarData)
    (symbol market : String) (res : Resolution) (ac : AssetClass) :
    List String × FileStore :=
  let zipPath := aggregatedZipPath dataDir symbol market res ac
  let csvName := symbol ++ ".csv"
  ([zipPath], write_zip fs zipPath csvName (format_aggregated_csv bars))

/-- `LeanDataWriter.write_bars`.  The writer object only stores its data
directory, passed here as `dataDir`; the file system is the explicit
`FileStore` state. -/
def write_bars (dataDir : String) (fs : FileStore) (bars : List BarData)
    (symbol market : String) (res : Resolution) (ac : AssetClass) :
    List String × FileStore :=
  if bars = [] then ([], fs)
  else
    let symbolLower := strLower symbol
    let marketLower := strLower market
    if res = Resolution.MINUTE ∨ res = Resolution.SECOND then
      write_intraday_bars dataDir fs bars symbolLower marketLower res ac
    else
      write_aggregated_bars dataDir fs bars symbolLower marketLower res ac

/-! ## Range reconciler (`BinanceClient.download_range_from_archive`) -/

/-- The archive environment: what `download_from_archive(symbol, interval,
year, month, day)` returns for the fixed symbol/interval of one
reconciliation call.  An empty list models 404 / bad archive / parse
failure, exactly as the source returns `[]` for those. -/
def ArchiveEnv : Type := Nat → Nat → Option Nat → List BarData

/-- The API environment: what `download_klines(symbol, interval, start, end)`
returns for a window (the source returns partial data rather than raising on
network/API failures). -/
def ApiEnv : Type := DateTime → DateTime → List BarData

/-- One remote request issued by the reconciler, in issue order:
either one `download_from_archive` call (monthly when `day = none`, daily
otherwise) or one `download_klines` call. -/
inductive Req where
  | archiveReq (interval : String) (year month : Nat) (day : Option Nat)
  | apiReq (interval : String) (startTime endTime : DateTime)
deriving DecidableEq, Repr

/-- Is this request a `download_klines` call? -/
def Req.isApi : Req → Bool
  | .apiReq .. => true
  | _ => false

/-- Is this request a `download_from_archive` call? -/
def Req.isArchive : Req → Bool
  | .archiveReq .. => true
  | _ => false

/-- Is this request a per-day archive file request? -/
def Req.isDailyArchive : Req → Bool
  | .archiveReq _ _ _ (some _) => true
  | _ => false

/-- Is this request the monthly archive file request for `(y, m)`? -/
def Req.isMonthlyReqFor (y m : Nat) : Req → Bool
  | .archiveReq _ y1 m1 none => y1 = y && m1 = m
  | _ => false

/-- The loop state of one reconciliation call: the bar accumulator
`all_bars`, the `missing_days` list, the `downloaded_months` set (kept as an
insertion-ordered list; only membership is ever queried), and the request
trace. -/
structure RState where
  bars : List BarData
  missing : List Date
  months : List (Nat × Nat)
  trace : List Req
deriving Repr

/-- The initial reconciler state. -/
def RState.init : RState := ⟨[], [], [], []⟩

/-- The range filter applied to every fetched batch:
`start_time <= b.timestamp <= end_time`. -/
def inWindow (st en : DateTime) (b : BarData) : Bool :=
  decide (DateTime.le st b.timestamp) && decide (DateTime.le b.timestamp en)

/-- The inner day-marking loop of the monthly branch:
`while day < next_month and day <= end_date: if day >= current_date: append`.
The fuel 40 strictly bounds its at most 31 iterations for real dates. -/
def markMissingDays (startD endD nextM : Date) : Nat → Date → List Date
  | 0, _ => []
  | fuel + 1, day =>
    if Date.lt day nextM ∧ Date.le day endD then
      (if Date.le startD day then [day] else []) ++
        markMissingDays startD endD nextM fuel day.nextDay
    else []

/-- The monthly loop of `download_range_from_archive` (the
`use_monthly_only` branch): one monthly archive request per iterated month,
bars filtered to the window, months with no data marked missing day by day. -/
def monthLoop (archive : ArchiveEnv) (interval : String) (st en : DateTime)
    (startD endD endM : Date) : Nat → Date → RState → RState
  | 0, _, s => s
  | fuel + 1, curM, s =>
    if Date.le curM endM then
      let y := curM.year
      let m := curM.month
      let monthlyBars := archive y m none
      let s1 : RState := { s with trace := s.trace ++ [Req.archiveReq interval y m none] }
      let nextM := curM.pyNextMonth
      let s2 : RState :=
        if monthlyBars ≠ [] then
          { s1 with bars := s1.bars ++ monthlyBars.filter (inWindow st en),
                    months := s1.months ++ [(y, m)] }
        else
          { s1 with missing := s1.missing ++ markMissingDays startD endD nextM 40 curM }
      monthLoop archive interval st en startD endD endM fuel nextM s2
    else s

/-- The daily loop of `download_range_from_archive` (sub-daily intervals):
per day, try the daily archive file; else try the monthly file unless its
key is in `downloaded_months`; a monthly success is cached, a monthly miss
marks the day missing. -/
def dayLoop (archive : ArchiveEnv) (interval : String) (st en : DateTime)
    (endD : Date) : Nat → Date → RState → RState
  | 0, _, s => s
  | fuel + 1, cur, s =>
    if Date.le cur endD then
      let y := cur.year
      let m := cur.month
      let d := cur.day
      let dailyBars := archive y m (some d)
      let s1 : RState := { s with trace := s.trace ++ [Req.archiveReq interval y m (some d)] }
      let s2 : RState :=
        if dailyBars ≠ [] then
          { s1 with bars := s1.bars ++ dailyBars.filter (inWindow st en) }
        else
          if (y, m) ∈ s1.months then s1
          else
            let monthlyBars := archive y m none
            let s3 : RState := { s1 with trace := s1.trace ++ [Req.archiveReq interval y m none] }
            if monthlyBars ≠ [] then
              { s3 with bars := s3.bars ++ monthlyBars.filter (inWindow st en),
                        months := s3.months ++ [(y, m)] }
            else
              { s3 with missing := s3.missing ++ [cur] }
      dayLoop archive interval st en endD fuel cur.nextDay s2
    else s

/-- The intervals for which the reconciler iterates by month:
`interval in ("1d", "3d", "1w", "1M")`. -/
def monthly_only_intervals : List String := ["1d", "3d", "1w", "1M"]

/-- The archive pass of `download_range_from_archive`: everything before the
API fallback.  The loop fuels are the exact iteration counts of the source's
`while` loops for valid calendar dates. -/
def archivePass (archive : ArchiveEnv) (interval : String) (st en : DateTime) : RState :=
  let startD := st.floorDate
  let endD := en.floorDate
  if interval ∈ monthly_only_intervals then
    let startM := startD.firstOfMonth
    let endM := endD.firstOfMonth
    monthLoop archive interval st en startD endD endM
      (endM.monthIdx + 1 - startM.monthIdx) startM RState.init
  else
    dayLoop archive interval st en endD (endD.ord + 1 - startD.ord) startD RState.init

/-- Python `min` over a nonempty list (head plus tail). -/
def pyMinDate (d : Date) (l : List Date) : Date :=
  l.foldl (fun acc x => if Date.lt x acc then x else acc) d

/-- Python `max` over a nonempty list (head plus tail). -/
def pyMaxDate (d : Date) (l : List Date) : Date :=
  l.foldl (fun acc x => if Date.lt acc x then x else acc) d

/-- Python `min` over a list, only ever applied to nonempty lists (the
source guards with `if missing_days:`); the empty case is junk. -/
def pyMinList : List Date → Date
  | [] => ⟨0, 0, 0⟩
  | d :: ds => pyMinDate d ds

/-- Python `max` over a list, only ever applied to nonempty lists. -/
def pyMaxList : List Date → Date
  | [] => ⟨0, 0, 0⟩
  | d :: ds => pyMaxDate d ds

/-- `download_range_from_archive` before its final sort/dedup step: the
archive pass followed by the single API fallback over
`[min(missing_days), max(missing_days) + 1 day)`, its result filtered to the
requested window. -/
def download_range_pre (archive : ArchiveEnv) (api : ApiEnv) (interval : String)
    (st en : DateTime) (fallback_to_api : Bool) : RState :=
  let s := archivePass archive interval st en
  if s.missing ≠ [] ∧ fallback_to_api = true then
    let apiStart := DateTime.midnightOf (pyMinList s.missing)
    let apiEnd := DateTime.midnightOf ((pyMaxList s.missing).addDays 1)
    let apiBars := api apiStart apiEnd
    { s with bars := s.bars ++ apiBars.filter (inWindow st en),
             trace := s.trace ++ [Req.apiReq interval apiStart apiEnd] }
  else s

/-- The `(timestamp, open, close)` deduplication key. -/
def dedupKeyOf (b : BarData) : DateTime × Rat × Rat := (b.timestamp, b.open_, b.close)

/-- The final dedup loop: walk the sorted list, keep a bar iff its key has
not been seen, remember seen keys.  (`seen` is a Python `set`; only
membership matters, so a key list models it.) -/
def dedupBars (seen : List (DateTime × Rat × Rat)) : List BarData → List BarData
  | [] => []
  | b :: rest =>
    if dedupKeyOf b ∈ seen then dedupBars seen rest
    else b :: dedupBars (dedupKeyOf b :: seen) rest

/-- `BinanceClient.download_range_from_archive`, returning the bar list the
source returns together with the trace of remote requests it issued. -/
def download_range_from_archive (archive : ArchiveEnv) (api : ApiEnv)
    (interval : String) (st en : DateTime) (fallback_to_api : Bool) :
    List BarData × List Req :=
  let s := download_range_pre archive api interval st en fallback_to_api
  (dedupBars [] (sortBarsByTs s.bars), s.trace)

/-! ## Download orchestrator (`download.download_data`) -/

instance {e a : Type} [DecidableEq e] [DecidableEq a] : DecidableEq (Except e a)
  | .error x, .error y =>
    if h : x = y then isTrue (by rw [h]) else isFalse (by intro hc; cases hc; exact h rfl)
  | .error _, .ok _ => isFalse (by intro hc; cases hc)
  | .ok _, .error _ => isFalse (by intro hc; cases hc)
  | .ok x, .ok y =>
    if h : x = y then isTrue (by rw [h]) else isFalse (by intro hc; cases hc; exact h rfl)

/-- The requests issued (or the error raised) when `download_data` processes
one `(symbol, interval)` pair.  With `use_archive`, an interval outside
`KLINE_INTERVALS` raises `KeyError` at `KLINE_INTERVALS[interval]` inside the
first `download_from_archive` call, before that call's network request — and
`download_data` guarantees `start <= end`, so that first call is always
reached; without `use_archive`, `download_klines` raises
`ValueError(f"Invalid interval: ...")` before its first page request.
Either way a pair with an invalid interval issues no request at all, and a
pair with a valid interval issues exactly its reconciler's (or one
`download_klines`) requests. -/
def downloadPairTrace (archive : ArchiveEnv) (api : ApiEnv) (interval : String)
    (st en : DateTime) (use_archive : Bool) : Except String (List Req) :=
  if interval ∈ KLINE_INTERVALS then
    if use_archive then
      Except.ok (download_range_from_archive archive api interval st en true).2
    else
      Except.ok [Req.apiReq interval st en]
  else
    Except.error ("Invalid interval: " ++ interval)

/-- The symbol × interval iteration of `download_binance_data`, driven by
`download_data`: symbols outer, intervals inner; the first raising pair
aborts, with all requests of the earlier pairs already issued. -/
def downloadPairsLoop (archive : ArchiveEnv) (api : ApiEnv) (st en : DateTime)
    (use_archive : Bool) (acc : List Req) :
    List (String × String) → Except String Unit × List Req
  | [] => (Except.ok (), acc)
  | (_, interval) :: rest =>
    match downloadPairTrace archive api interval st en use_archive with
    | Except.ok tr => downloadPairsLoop archive api st en use_archive (acc ++ tr) rest
    | Except.error e => (Except.error e, acc)

/-- `download.download_data`, reduced to its error behaviour and the network
requests it causes: the exchange check, then the date-range check, then the
pair loop.  (Writer failures are caught per pair and never abort, so they do
not appear here.) -/
def download_data (archive : ArchiveEnv) (api : ApiEnv)
    (symbols intervals : List String) (exchange : String) (st en : DateTime)
    (use_archive : Bool) : Except String Unit × List Req :=
  if strLower exchange ≠ "binance" then
    (Except.error ("Only binance exchange is currently supported, got: " ++ exchange), [])
  else if DateTime.lt en st then
    (Except.error ("Start date must be before or equal to end date"), [])
  else
    downloadPairsLoop archive api st en use_archive []
      (symbols.flatMap (fun s => intervals.map (fun i => (s, i))))

/-! ## Live API fetcher paging loop (`BinanceClient.download_klines`) -/

/-- One kline row of a page response, with its epoch-millisecond open time
(the loop only ever inspects `kline[0]`). -/
structure ApiKline where
  openTime : Nat
  open_ : Rat
  high : Rat
  low : Rat
  close : Rat
  volume : Rat
deriving DecidableEq, Repr

/-- One page request outcome: a transport error (`aiohttp.ClientError`), a
non-200 HTTP status, or a JSON list of klines. -/
inductive PageResponse where
  | transportError
  | httpError (status : Nat)
  | page (data : List ApiKline)
deriving Repr

/-- The paging loop state of `download_klines`: either still walking with
the current `startTime` (epoch ms) and the accumulated bars, or out of the
loop. -/
inductive KlinesState where
  | running (currentStart : Nat) (acc : List ApiKline)
  | finished (acc : List ApiKline)
deriving Repr

/-- Is the loop finished? -/
def KlinesState.isFinished : KlinesState → Bool
  | .finished _ => true
  | _ => false

/-- One iteration of the `while current_start < end_time` loop of
`download_klines`.  Times are epoch milliseconds (the loop's arithmetic is
exact in ms: `startTime` params are `int(ts*1000)` and the advance is
`last + timedelta(milliseconds=1)`).  The environment `pages` gives the page
response for each requested `startTime`; bars of a page are appended before
the non-advancing check, exactly as in the source. -/
def klinesStep (pages : Nat → PageResponse) (endTime : Nat) : KlinesState → KlinesState
  | .finished acc => .finished acc
  | .running cur acc =>
    if cur < endTime then
      match pages cur with
      | .transportError => .finished acc
      | .httpError _ => .finished acc
      | .page [] => .finished acc
      | .page (k :: ks) =>
        let acc1 := acc ++ (k :: ks)
        let lastTime := ((k :: ks).getLast (List.cons_ne_nil k ks)).openTime
        if lastTime ≤ cur then .finished acc1
        else .running (lastTime + 1) acc1
    else .finished acc

/-! ## Claim C6 — interval-to-Resolution mapping -/

/-- C6: the interval-to-Resolution mapping is total over the supported
interval set and fails on anything else: every supported interval string is
mapped to exactly one of second/minute/hour/daily (never tick), and every
unsupported string yields the `Unsupported interval` error instead of a
value. -/
theorem claim_C6 (s : String) :
    (s ∈ KLINE_INTERVALS →
      ∃ r, Resolution.from_interval s = Except.ok r ∧
        r ∈ [Resolution.SECOND, Resolution.MINUTE, Resolution.HOUR, Resolution.DAILY] ∧
        r ≠ Resolution.TICK) ∧
    (s ∉ KLINE_INTERVALS →
      ∃ msg, Resolution.from_interval s = Except.error msg) := by
  constructor
  · intro h
    fin_cases h <;> exact ⟨_, rfl, by decide, by decide⟩
  · intro h
    have hk : intervalResolutionMap.map Prod.fst = KLINE_INTERVALS := by decide
    have hnone : intervalResolutionMap.lookup s = none := by
      rw [lookup_eq_none_iff_not_mem_keys, hk]
      exact h
    refine ⟨"Unsupported interval: " ++ s, ?_⟩
    unfold Resolution.from_interval
    rw [hnone]

/-- Witness for C6 at a supported interval and at an unsupported string. -/
theorem claim_C6_witness :
    (∃ r, Resolution.from_interval "1h" = Except.ok r ∧
      r ∈ [Resolution.SECOND, Resolution.MINUTE, Resolution.HOUR, Resolution.DAILY] ∧
      r ≠ Resolution.TICK) ∧
    (∃ msg, Resolution.from_interval "7x" = Except.error msg) :=
  ⟨(claim_C6 "1h").1 (by decide), (claim_C6 "7x").2 (by decide)⟩

/-! ## Claims C7 and C10 — writer output layout -/

/-- Key sequence of one grouping step. -/
theorem insertGrouped_map_fst (k : String) (b : BarData)
    (g : List (String × List BarData)) :
    (insertGrouped k b g).map Prod.fst =
      if k ∈ g.map Prod.fst then g.map Prod.fst else g.map Prod.fst ++ [k] := by
  induction g with
  | nil => simp [insertGrouped]
  | cons p rest ih =>
    rcases p with ⟨k1, bs⟩
    by_cases h : k1 = k
    · subst h
      simp [insertGrouped]
    · have hne : ¬ k = k1 := fun hh => h hh.symm
      simp only [insertGrouped, if_neg h, List.map_cons, ih, List.mem_cons]
      by_cases hm : k ∈ rest.map Prod.fst
      · simp [hm, hne]
      · simp [hm, hne]

/-- The Python dict key sequence of the date grouping is exactly the
first-seen-order distinct date strings of the bars. -/
theorem groupBarsByDate_keys (bars : List BarData) :
    (groupBarsByDate bars).map Prod.fst =
      firstKeys (bars.map (fun b => b.timestamp.strfYMD)) := by
  suffices h : ∀ (l : List BarData) (g : List (String × List BarData)),
      (l.foldl (fun acc b => insertGrouped (DateTime.strfYMD b.timestamp) b acc) g).map Prod.fst =
        (l.map (fun b => b.timestamp.strfYMD)).foldl
          (fun acc k => if k ∈ acc then acc else acc ++ [k]) (g.map Prod.fst) by
    exact h bars []
  intro l
  induction l with
  | nil => intro g; rfl
  | cons b rest ih =>
    intro g
    simp only [List.foldl_cons, List.map_cons]
    rw [ih, insertGrouped_map_fst]

/-- The per-date write loop returns one zip path per group, in group order. -/
theorem writeIntradayGroups_paths (dataDir symbol market : String)
    (res : Resolution) (ac : AssetClass) (fs : FileStore)
    (groups : List (String × List BarData)) :
    (writeIntradayGroups dataDir symbol market res ac fs groups).1 =
      (groups.map Prod.fst).map (fun k =>
        dataDir ++ "/" ++ ac.value ++ "/" ++ market ++ "/" ++ res.value ++ "/" ++ symbol ++
          "/" ++ k ++ "_trade.zip") := by
  induction groups generalizing fs with
  | nil => rfl
  | cons g rest ih =>
    rcases g with ⟨dateStr, dayBars⟩
    simp only [writeIntradayGroups, List.map_cons, List.cons.injEq]
    exact ⟨trivial, ih _⟩

/-- Path-shape normalisation for the aggregated (hour/daily) layout. -/
theorem aggregatedPathEq (dataDir : String) :
    dataDir ++ "/" ++ AssetClass.CRYPTO.value ++ "/" ++ strLower "binance" ++ "/" ++
      Resolution.DAILY.value ++ "/" ++ strLower "BTCUSDT" ++ "_trade.zip" =
    dataDir ++ "/crypto/binance/daily/btcusdt_trade.zip" := by
  simp only [String.append_assoc]
  congr 1

/-- Path-shape normalisation for the intraday (minute) layout. -/
theorem minutePathEq (dataDir k : String) :
    dataDir ++ "/" ++ AssetClass.CRYPTO.value ++ "/" ++ strLower "binance" ++ "/" ++
      Resolution.MINUTE.value ++ "/" ++ strLower "BTCUSDT" ++ "/" ++ k ++ "_trade.zip" =
    dataDir ++ "/crypto/binance/minute/btcusdt/" ++ k ++ "_trade.zip" := by
  congr 2
  simp only [String.append_assoc]
  congr 1

/-- C7: writing a non-empty list of daily bars for symbol BTCUSDT on market
binance produces exactly the single file
`{dataDir}/crypto/binance/daily/btcusdt_trade.zip` (lowercased components),
and writing minute bars whose timestamps span exactly two calendar dates
(date keys `s1` then `s2` in first-seen order) produces exactly two files,
one per date, at `{dataDir}/crypto/binance/minute/btcusdt/{YYYYMMDD}_trade.zip`. -/
theorem claim_C7 (dataDir : String) (fs : FileStore) (bars : List BarData) :
    (bars ≠ [] →
      (write_bars dataDir fs bars "BTCUSDT" "binance" Resolution.DAILY AssetClass.CRYPTO).1 =
        [dataDir ++ "/crypto/binance/daily/btcusdt_trade.zip"]) ∧
    (∀ s1 s2,
      firstKeys (bars.map (fun b => b.timestamp.strfYMD)) = [s1, s2] →
      (write_bars dataDir fs bars "BTCUSDT" "binance" Resolution.MINUTE AssetClass.CRYPTO).1 =
        [dataDir ++ "/crypto/binance/minute/btcusdt/" ++ s1 ++ "_trade.zip",
         dataDir ++ "/crypto/binance/minute/btcusdt/" ++ s2 ++ "_trade.zip"]) := by
  constructor
  · intro h
    have hres : ¬ (Resolution.DAILY = Resolution.MINUTE ∨ Resolution.DAILY = Resolution.SECOND) := by
      decide
    simp only [write_bars, if_neg h, if_neg hres, write_aggregated_bars, aggregatedZipPath]
    rw [aggregatedPathEq]
  · intro s1 s2 hkeys
    have hb : bars ≠ [] := by
      intro hnil
      rw [hnil] at hkeys
      simp [firstKeys] at hkeys
    have hres : (Resolution.MINUTE = Resolution.MINUTE ∨ Resolution.MINUTE = Resolution.SECOND) := by
      decide
    have hkeys2 : (groupBarsByDate bars).map Prod.fst = [s1, s2] := by
      rw [groupBarsByDate_keys, hkeys]
    simp only [write_bars, if_neg hb, eq_self_iff_true, true_or, if_true, write_intraday_bars]
    rw [writeIntradayGroups_paths, hkeys2]
    simp only [List.map_cons, List.map_nil]
    rw [minutePathEq, minutePathEq]

/-- An empty file-system state, for concrete witnesses. -/
def sampleStore : FileStore := fun _ => none

/-- A concrete bar at a given calendar position, for witnesses. -/
def barAt (y m d ms : Nat) : BarData := ⟨⟨⟨y, m, d⟩, ms⟩, 100, 105, 99, 103, 1000⟩

/-- Witness for C7: one daily file for one bar; two dated minute files for
bars on 2024-01-01 and 2024-01-02. -/
theorem claim_C7_witness :
    ([barAt 2024 1 1 0] ≠ ([] : List BarData) ∧
      (write_bars "Data" sampleStore [barAt 2024 1 1 0] "BTCUSDT" "binance"
        Resolution.DAILY AssetClass.CRYPTO).1 =
        ["Data" ++ "/crypto/binance/daily/btcusdt_trade.zip"]) ∧
    (firstKeys ([barAt 2024 1 1 0, barAt 2024 1 2 60000].map (fun b => b.timestamp.strfYMD)) =
        ["20240101", "20240102"] ∧
      (write_bars "Data" sampleStore [barAt 2024 1 1 0, barAt 2024 1 2 60000] "BTCUSDT" "binance"
        Resolution.MINUTE AssetClass.CRYPTO).1 =
        ["Data" ++ "/crypto/binance/minute/btcusdt/" ++ "20240101" ++ "_trade.zip",
         "Data" ++ "/crypto/binance/minute/btcusdt/" ++ "20240102" ++ "_trade.zip"]) :=
  ⟨⟨by decide, (claim_C7 "Data" sampleStore [barAt 2024 1 1 0]).1 (by decide)⟩,
   ⟨by decide, (claim_C7 "Data" sampleStore [barAt 2024 1 1 0, barAt 2024 1 2 60000]).2
      "20240101" "20240102" (by decide)⟩⟩

/-- C10: for fixed data directory, symbol, market and asset class, the
hour/daily writer always writes the single path
`{asset_class}/{market}/{resolution}/{symbol}_trade.zip`, a function of the
resolution bucket only (no source interval, no date); intervals 1h and 2h
share the HOUR bucket and 1d and 1w share the DAILY bucket, hence an
identical output path, and the later of two writes to that path replaces the
file's content with a function of its own bars alone. -/
theorem claim_C10 :
    Resolution.from_interval "1h" = Except.ok Resolution.HOUR ∧
    Resolution.from_interval "2h" = Except.ok Resolution.HOUR ∧
    Resolution.from_interval "1d" = Except.ok Resolution.DAILY ∧
    Resolution.from_interval "1w" = Except.ok Resolution.DAILY ∧
    ∀ (dataDir : String) (fs : FileStore) (bars1 bars2 : List BarData)
      (symbol market : String) (res : Resolution) (ac : AssetClass),
      (res = Resolution.HOUR ∨ res = Resolution.DAILY) →
      bars1 ≠ [] → bars2 ≠ [] →
      (write_bars dataDir fs bars1 symbol market res ac).1 =
          [aggregatedZipPath dataDir (strLower symbol) (strLower market) res ac] ∧
      (write_bars dataDir fs bars2 symbol market res ac).1 =
          [aggregatedZipPath dataDir (strLower symbol) (strLower market) res ac] ∧
      (write_bars dataDir (write_bars dataDir fs bars1 symbol market res ac).2 bars2
          symbol market res ac).2
          (aggregatedZipPath dataDir (strLower symbol) (strLower market) res ac) =
        some (strLower symbol ++ ".csv", format_aggregated_csv bars2) := by
  refine ⟨rfl, rfl, rfl, rfl, ?_⟩
  intro dataDir fs bars1 bars2 symbol market res ac hres h1 h2
  have hm : ¬ (res = Resolution.MINUTE ∨ res = Resolution.SECOND) := by
    rcases hres with h | h <;> subst h <;> decide
  refine ⟨?_, ?_, ?_⟩ <;>
    simp [write_bars, if_neg h1, if_neg h2, if_neg hm, write_aggregated_bars, write_zip]

/-- Witness for C10 at hour resolution with two concrete single-bar writes. -/
theorem claim_C10_witness :
    (Resolution.HOUR = Resolution.HOUR ∨ Resolution.HOUR = Resolution.DAILY) ∧
    ([barAt 2024 1 1 0] ≠ ([] : List BarData)) ∧
    ([barAt 2024 1 2 0] ≠ ([] : List BarData)) ∧
    ((write_bars "Data" sampleStore [barAt 2024 1 1 0] "BTCUSDT" "binance"
        Resolution.HOUR AssetClass.CRYPTO).1 =
      [aggregatedZipPath "Data" (strLower "BTCUSDT") (strLower "binance")
        Resolution.HOUR AssetClass.CRYPTO] ∧
     (write_bars "Data" sampleStore [barAt 2024 1 2 0] "BTCUSDT" "binance"
        Resolution.HOUR AssetClass.CRYPTO).1 =
      [aggregatedZipPath "Data" (strLower "BTCUSDT") (strLower "binance")
        Resolution.HOUR AssetClass.CRYPTO] ∧
     (write_bars "Data" (write_bars "Data" sampleStore [barAt 2024 1 1 0] "BTCUSDT" "binance"
          Resolution.HOUR AssetClass.CRYPTO).2 [barAt 2024 1 2 0] "BTCUSDT" "binance"
          Resolution.HOUR AssetClass.CRYPTO).2
        (aggregatedZipPath "Data" (strLower "BTCUSDT") (strLower "binance")
          Resolution.HOUR AssetClass.CRYPTO) =
       some (strLower "BTCUSDT" ++ ".csv", format_aggregated_csv [barAt 2024 1 2 0])) :=
  ⟨Or.inl rfl, by decide, by decide,
   claim_C10.2.2.2.2 "Data" sampleStore [barAt 2024 1 1 0] [barAt 2024 1 2 0]
     "BTCUSDT" "binance" Resolution.HOUR AssetClass.CRYPTO (Or.inl rfl)
     (by decide) (by decide)⟩

/-! ## Order facts for the timestamp sort -/

/-- Transitivity of the Python datetime order. -/
theorem DateTime.le_trans1 : ∀ a b c : DateTime, DateTime.le a b → DateTime.le b c → DateTime.le a c := by
  rintro ⟨⟨ay, am, ad⟩, ams⟩ ⟨⟨cy, cm, cd⟩, cms⟩ ⟨⟨ey, em, ed⟩, ems⟩
  simp only [DateTime.le, Date.lt, Date.mk.injEq]
  omega

/-- Totality of the Python datetime order. -/
theorem DateTime.le_total1 : ∀ a b : DateTime, DateTime.le a b ∨ DateTime.le b a := by
  rintro ⟨⟨ay, am, ad⟩, ams⟩ ⟨⟨cy, cm, cd⟩, cms⟩
  simp only [DateTime.le, Date.lt, Date.mk.injEq]
  omega

instance : IsTrans BarData barTsLe :=
  ⟨fun _ _ _ hab hbc => DateTime.le_trans1 _ _ _ hab hbc⟩

instance : IsTotal BarData barTsLe :=
  ⟨fun a b => DateTime.le_total1 a.timestamp b.timestamp⟩

/-- The sorted list is pairwise ordered by timestamp. -/
theorem sortBarsByTs_sorted (l : List BarData) :
    (sortBarsByTs l).Pairwise barTsLe :=
  List.sorted_insertionSort barTsLe l

/-- The sorted list is a permutation of the input. -/
theorem sortBarsByTs_perm (l : List BarData) :
    List.Perm (sortBarsByTs l) l :=
  List.perm_insertionSort barTsLe l

/-! ## Dedup-loop facts -/

/-- The dedup loop keeps a subsequence of its input. -/
theorem dedupBars_sublist : ∀ (seen : List (DateTime × Rat × Rat)) (l : List BarData),
    List.Sublist (dedupBars seen l) l := by
  intro seen l
  induction l generalizing seen with
  | nil => simp [dedupBars]
  | cons c rest ih =>
    rw [dedupBars]
    by_cases hc : dedupKeyOf c ∈ seen
    · rw [if_pos hc]
      exact List.Sublist.cons c (ih seen)
    · rw [if_neg hc]
      exact List.Sublist.cons₂ c (ih _)

/-- Membership in the dedup output: exactly the bars that occur in the input
with a key neither seen before the loop nor carried by any earlier input
element — i.e. the first-seen occurrence of each unseen key. -/
theorem mem_dedupBars_iff (l : List BarData) :
    ∀ (seen : List (DateTime × Rat × Rat)) (b : BarData),
      b ∈ dedupBars seen l ↔
        dedupKeyOf b ∉ seen ∧
          ∃ l1 l2, l = l1 ++ b :: l2 ∧ ∀ a ∈ l1, dedupKeyOf a ≠ dedupKeyOf b := by
  induction l with
  | nil =>
    intro seen b
    simp [dedupBars]
  | cons c rest ih =>
    intro seen b
    rw [dedupBars]
    by_cases hc : dedupKeyOf c ∈ seen
    · rw [if_pos hc, ih]
      constructor
      · rintro ⟨hb, l1, l2, heq, hl1⟩
        refine ⟨hb, c :: l1, l2, by rw [heq]; rfl, ?_⟩
        intro a ha
        rcases List.mem_cons.mp ha with rfl | ha2
        · exact fun hk => hb (hk ▸ hc)
        · exact hl1 a ha2
      · rintro ⟨hb, l1, l2, heq, hl1⟩
        cases l1 with
        | nil =>
          simp only [List.nil_append] at heq
          cases heq
          exact absurd hc hb
        | cons x l1t =>
          simp only [List.cons_append, List.cons.injEq] at heq
          rcases heq with ⟨rfl, heq2⟩
          exact ⟨hb, l1t, l2, heq2, fun a ha => hl1 a (List.mem_cons_of_mem _ ha)⟩
    · rw [if_neg hc]
      by_cases hbc : b = c
      · subst hbc
        simp only [List.mem_cons, true_or, true_iff]
        exact ⟨hc, [], rest, rfl, by simp⟩
      · rw [List.mem_cons]
        simp only [hbc, false_or]
        rw [ih]
        constructor
        · rintro ⟨hb, l1, l2, heq, hl1⟩
          have hb1 : dedupKeyOf b ≠ dedupKeyOf c := fun h => hb (by rw [h]; exact List.mem_cons_self _ _)
          have hb2 : dedupKeyOf b ∉ seen := fun h => hb (List.mem_cons_of_mem _ h)
          refine ⟨hb2, c :: l1, l2, by rw [heq]; rfl, ?_⟩
          intro a ha
          rcases List.mem_cons.mp ha with rfl | ha2
          · exact fun hk => hb1 hk.symm
          · exact hl1 a ha2
        · rintro ⟨hb, l1, l2, heq, hl1⟩
          cases l1 with
          | nil =>
            simp only [List.nil_append] at heq
            cases heq
            exact absurd rfl hbc
          | cons x l1t =>
            simp only [List.cons_append, List.cons.injEq] at heq
            rcases heq with ⟨rfl, heq2⟩
            have hcb : dedupKeyOf c ≠ dedupKeyOf b := hl1 c (List.mem_cons_self _ _)
            refine ⟨?_, l1t, l2, heq2, fun a ha => hl1 a (List.mem_cons_of_mem _ ha)⟩
            intro hmem
            rcases List.mem_cons.mp hmem with h | h
            · exact hcb h.symm
            · exact hb h

/-- The dedup output carries pairwise distinct `(timestamp, open, close)` keys. -/
theorem dedupBars_pairwise_ne : ∀ (seen : List (DateTime × Rat × Rat)) (l : List BarData),
    (dedupBars seen l).Pairwise (fun a b => dedupKeyOf a ≠ dedupKeyOf b) := by
  intro seen l
  induction l generalizing seen with
  | nil => simp [dedupBars]
  | cons c rest ih =>
    rw [dedupBars]
    by_cases hc : dedupKeyOf c ∈ seen
    · rw [if_pos hc]
      exact ih seen
    · rw [if_neg hc]
      refine List.Pairwise.cons ?_ (ih _)
      intro b hb
      have := (mem_dedupBars_iff rest _ b).mp hb
      intro hk
      exact this.1 (by rw [← hk]; exact List.mem_cons_self _ _)

/-! ## Claim C1 — final sort and dedup of the reconciler -/

/-- C1: for every input, the reconciler's returned bar list is sorted
ascending by timestamp, carries pairwise distinct `(timestamp, open, close)`
keys, and consists exactly of the first-seen occurrence (in sorted order) of
each key of the sorted accumulator — later duplicates are discarded. -/
theorem claim_C1 (archive : ArchiveEnv) (api : ApiEnv) (interval : String)
    (st en : DateTime) (fb : Bool) :
    (download_range_from_archive archive api interval st en fb).1.Pairwise barTsLe ∧
    (download_range_from_archive archive api interval st en fb).1.Pairwise
      (fun a b => dedupKeyOf a ≠ dedupKeyOf b) ∧
    (∀ b, b ∈ (download_range_from_archive archive api interval st en fb).1 ↔
      ∃ l1 l2,
        sortBarsByTs (download_range_pre archive api interval st en fb).bars = l1 ++ b :: l2 ∧
        ∀ a ∈ l1, dedupKeyOf a ≠ dedupKeyOf b) := by
  refine ⟨?_, ?_, ?_⟩
  · exact ((sortBarsByTs_sorted _).sublist (dedupBars_sublist [] _))
  · exact dedupBars_pairwise_ne [] _
  · intro b
    rw [show (download_range_from_archive archive api interval st en fb).1 =
        dedupBars [] (sortBarsByTs (download_range_pre archive api interval st en fb).bars) from rfl,
      mem_dedupBars_iff]
    simp

/-! ## Claim C2 — window filtering -/

/-- Bars only ever enter the monthly-loop accumulator through the window
filter. -/
theorem monthLoop_bars_window (archive : ArchiveEnv) (interval : String)
    (st en : DateTime) (startD endD endM : Date) :
    ∀ (fuel : Nat) (cur : Date) (s : RState),
      (∀ b ∈ s.bars, inWindow st en b = true) →
      ∀ b ∈ (monthLoop archive interval st en startD endD endM fuel cur s).bars,
        inWindow st en b = true := by
  intro fuel
  induction fuel with
  | zero => intro cur s hs; exact hs
  | succ f ih =>
    intro cur s hs
    rw [monthLoop]
    split
    · apply ih
      intro b hb
      split at hb
      · rcases List.mem_append.mp hb with h | h
        · exact hs b h
        · exact (List.mem_filter.mp h).2
      · exact hs b hb
    · exact hs

/-- Bars only ever enter the daily-loop accumulator through the window
filter. -/
theorem dayLoop_bars_window (archive : ArchiveEnv) (interval : String)
    (st en : DateTime) (endD : Date) :
    ∀ (fuel : Nat) (cur : Date) (s : RState),
      (∀ b ∈ s.bars, inWindow st en b = true) →
      ∀ b ∈ (dayLoop archive interval st en endD fuel cur s).bars,
        inWindow st en b = true := by
  intro fuel
  induction fuel with
  | zero => intro cur s hs; exact hs
  | succ f ih =>
    intro cur s hs
    rw [dayLoop]
    split
    · apply ih
      intro b hb
      split at hb
      · rcases List.mem_append.mp hb with h | h
        · exact hs b h
        · exact (List.mem_filter.mp h).2
      · split at hb
        · exact hs b hb
        · dsimp only at hb
          split at hb
          · rcases List.mem_append.mp hb with h | h
            · exact hs b h
            · exact (List.mem_filter.mp h).2
          · exact hs b hb
    · exact hs

/-- Every bar accumulated before the final sort/dedup lies in the window. -/
theorem download_range_pre_window (archive : ArchiveEnv) (api : ApiEnv)
    (interval : String) (st en : DateTime) (fb : Bool) :
    ∀ b ∈ (download_range_pre archive api interval st en fb).bars,
      inWindow st en b = true := by
  have harch : ∀ b ∈ (archivePass archive interval st en).bars, inWindow st en b = true := by
    unfold archivePass
    split
    · exact monthLoop_bars_window archive interval st en _ _ _ _ _ RState.init (by simp [RState.init])
    · exact dayLoop_bars_window archive interval st en _ _ _ RState.init (by simp [RState.init])
  unfold download_range_pre
  dsimp only
  split
  · intro b hb
    dsimp only at hb
    rcases List.mem_append.mp hb with h | h
    · exact harch b h
    · exact (List.mem_filter.mp h).2
  · exact harch

/-- C2: with start ≤ end, every bar the reconciler returns has a timestamp
inside the inclusive window `[start, end]`, whatever batches any source
supplies. -/
theorem claim_C2 (archive : ArchiveEnv) (api : ApiEnv) (interval : String)
    (st en : DateTime) (fb : Bool) (hse : DateTime.le st en) :
    ∀ b ∈ (download_range_from_archive archive api interval st en fb).1,
      DateTime.le st b.timestamp ∧ DateTime.le b.timestamp en := by
  intro b hb
  have hmem1 : b ∈ sortBarsByTs (download_range_pre archive api interval st en fb).bars :=
    (dedupBars_sublist [] _).mem hb
  have hmem2 : b ∈ (download_range_pre archive api interval st en fb).bars :=
    (sortBarsByTs_perm _).mem_iff.mp hmem1
  have hw := download_range_pre_window archive api interval st en fb b hmem2
  simpa [inWindow, Bool.and_eq_true, decide_eq_true_eq] using hw

/-- Witness for C2 on a concrete one-day request whose daily archive file
contains one in-window and one out-of-window bar. -/
theorem claim_C2_witness :
    DateTime.le ⟨⟨2024, 1, 1⟩, 0⟩ ⟨⟨2024, 1, 1⟩, 3600000⟩ ∧
    ∀ b ∈ (download_range_from_archive
        (fun _ _ d => match d with
          | some _ => [barAt 2024 1 1 60000, barAt 2024 1 2 0]
          | none => [])
        (fun _ _ => []) "1m" ⟨⟨2024, 1, 1⟩, 0⟩ ⟨⟨2024, 1, 1⟩, 3600000⟩ true).1,
      DateTime.le ⟨⟨2024, 1, 1⟩, 0⟩ b.timestamp ∧
        DateTime.le b.timestamp ⟨⟨2024, 1, 1⟩, 3600000⟩ :=
  ⟨by decide,
   claim_C2 (fun _ _ d => match d with
      | some _ => [barAt 2024 1 1 60000, barAt 2024 1 2 0]
      | none => [])
     (fun _ _ => []) "1m" ⟨⟨2024, 1, 1⟩, 0⟩ ⟨⟨2024, 1, 1⟩, 3600000⟩ true (by decide)⟩

/-! ## Claim C3 — single API fallback call -/

/-- The monthly loop only records archive requests. -/
theorem monthLoop_trace_archive (archive : ArchiveEnv) (interval : String)
    (st en : DateTime) (startD endD endM : Date) :
    ∀ (fuel : Nat) (cur : Date) (s : RState),
      (∀ r ∈ s.trace, r.isArchive = true) →
      ∀ r ∈ (monthLoop archive interval st en startD endD endM fuel cur s).trace,
        r.isArchive = true := by
  intro fuel
  induction fuel with
  | zero => intro cur s hs; exact hs
  | succ f ih =>
    intro cur s hs
    rw [monthLoop]
    split
    · apply ih
      intro r hr
      split at hr <;>
      · simp only [List.mem_append, List.mem_singleton] at hr
        rcases hr with h | h
        · exact hs r h
        · subst h; rfl
    · exact hs

/-- The daily loop only records archive requests. -/
theorem dayLoop_trace_archive (archive : ArchiveEnv) (interval : String)
    (st en : DateTime) (endD : Date) :
    ∀ (fuel : Nat) (cur : Date) (s : RState),
      (∀ r ∈ s.trace, r.isArchive = true) →
      ∀ r ∈ (dayLoop archive interval st en endD fuel cur s).trace,
        r.isArchive = true := by
  intro fuel
  induction fuel with
  | zero => intro cur s hs; exact hs
  | succ f ih =>
    intro cur s hs
    rw [dayLoop]
    split
    · apply ih
      intro r hr
      have hbase : ∀ x ∈ s.trace ++ [Req.archiveReq interval cur.year cur.month (some cur.day)],
          Req.isArchive x = true := by
        intro x hx
        simp only [List.mem_append, List.mem_singleton] at hx
        rcases hx with h | h
        · exact hs x h
        · subst h; rfl
      split at hr
      · exact hbase r hr
      · split at hr
        · exact hbase r hr
        · dsimp only at hr
          split at hr <;>
          · simp only [List.mem_append, List.mem_singleton] at hr
            rcases hr with (h | h) | h
            · exact hs r h
            · subst h; rfl
            · subst h; rfl
    · exact hs

/-- The archive pass only records archive requests. -/
theorem archivePass_trace_archive (archive : ArchiveEnv) (interval : String)
    (st en : DateTime) :
    ∀ r ∈ (archivePass archive interval st en).trace, r.isArchive = true := by
  unfold archivePass
  split
  · exact monthLoop_trace_archive archive interval st en _ _ _ _ _ RState.init
      (by simp [RState.init])
  · exact dayLoop_trace_archive archive interval st en _ _ _ RState.init
      (by simp [RState.init])

/-- C3: whenever the archive pass leaves at least one missing day and API
fallback is enabled, the reconciler issues exactly one `download_klines`
call, spanning `[min(missing days), max(missing days) + 1 day)` (even when
the missing days are not contiguous), after the archive-pass requests; the
call's bars are filtered to the requested `[start, end]` window before being
appended to the accumulator. -/
theorem claim_C3 (archive : ArchiveEnv) (api : ApiEnv) (interval : String)
    (st en : DateTime)
    (hmiss : (archivePass archive interval st en).missing ≠ []) :
    (download_range_from_archive archive api interval st en true).2.filter Req.isApi =
      [Req.apiReq interval
        (DateTime.midnightOf (pyMinList (archivePass archive interval st en).missing))
        (DateTime.midnightOf (((pyMaxList (archivePass archive interval st en).missing).addDays 1)))] ∧
    (download_range_from_archive archive api interval st en true).2 =
      (archivePass archive interval st en).trace ++
        [Req.apiReq interval
          (DateTime.midnightOf (pyMinList (archivePass archive interval st en).missing))
          (DateTime.midnightOf (((pyMaxList (archivePass archive interval st en).missing).addDays 1)))] ∧
    (download_range_pre archive api interval st en true).bars =
      (archivePass archive interval st en).bars ++
        (api (DateTime.midnightOf (pyMinList (archivePass archive interval st en).missing))
          (DateTime.midnightOf (((pyMaxList (archivePass archive interval st en).missing).addDays 1)))).filter
          (inWindow st en) := by
  have hcond : (archivePass archive interval st en).missing ≠ [] ∧ (true : Bool) = true :=
    ⟨hmiss, rfl⟩
  have hpre : download_range_pre archive api interval st en true =
      { archivePass archive interval st en with
        bars := (archivePass archive interval st en).bars ++
          (api (DateTime.midnightOf (pyMinList (archivePass archive interval st en).missing))
            (DateTime.midnightOf (((pyMaxList (archivePass archive interval st en).missing).addDays 1)))).filter
            (inWindow st en),
        trace := (archivePass archive interval st en).trace ++
          [Req.apiReq interval
            (DateTime.midnightOf (pyMinList (archivePass archive interval st en).missing))
            (DateTime.midnightOf (((pyMaxList (archivePass archive interval st en).missing).addDays 1)))] } := by
    unfold download_range_pre
    rw [if_pos hcond]
  have htr : (download_range_from_archive archive api interval st en true).2 =
      (download_range_pre archive api interval st en true).trace := rfl
  refine ⟨?_, ?_, ?_⟩
  · rw [htr, hpre]
    dsimp only
    rw [List.filter_append]
    have h1 : (archivePass archive interval st en).trace.filter Req.isApi = [] := by
      rw [List.filter_eq_nil_iff]
      intro r hr
      have := archivePass_trace_archive archive interval st en r hr
      cases r with
      | archiveReq i y m d => simp [Req.isApi]
      | apiReq i a b => simp [Req.isArchive] at this
    rw [h1]
    rfl
  · rw [htr, hpre]
  · rw [hpre]

/-- An archive environment with no data at all, for witnesses and
counterexamples. -/
def emptyArchive : ArchiveEnv := fun _ _ _ => []

/-- An API environment returning one fixed bar, for witnesses. -/
def oneBarApi : ApiEnv := fun _ _ => [barAt 2024 1 1 0, barAt 2023 1 1 0]

/-- Witness for C3: a two-day request with an empty archive marks both days
missing and triggers exactly one API call over the two-day span. -/
theorem claim_C3_witness :
    (archivePass emptyArchive "1m" ⟨⟨2024, 1, 1⟩, 0⟩ ⟨⟨2024, 1, 2⟩, 0⟩).missing ≠ [] ∧
    (download_range_from_archive emptyArchive oneBarApi "1m"
        ⟨⟨2024, 1, 1⟩, 0⟩ ⟨⟨2024, 1, 2⟩, 0⟩ true).2.filter Req.isApi =
      [Req.apiReq "1m"
        (DateTime.midnightOf (pyMinList
          (archivePass emptyArchive "1m" ⟨⟨2024, 1, 1⟩, 0⟩ ⟨⟨2024, 1, 2⟩, 0⟩).missing))
        (DateTime.midnightOf (((pyMaxList
          (archivePass emptyArchive "1m" ⟨⟨2024, 1, 1⟩, 0⟩ ⟨⟨2024, 1, 2⟩, 0⟩).missing).addDays 1)))] :=
  ⟨by decide,
   (claim_C3 emptyArchive oneBarApi "1m" ⟨⟨2024, 1, 1⟩, 0⟩ ⟨⟨2024, 1, 2⟩, 0⟩ (by decide)).1⟩

/-! ## Claim C5 — monthly-archive caching in the sub-daily path -/

/-- An API environment with no data, for witnesses and counterexamples. -/
def emptyApi : ApiEnv := fun _ _ => []

/-- Number of monthly archive requests for the key `(y, m)` in a trace. -/
def monthlyCountFor (y m : Nat) (tr : List Req) : Nat :=
  (tr.filter (Req.isMonthlyReqFor y m)).length

/-- Counting is additive over trace concatenation. -/
theorem monthlyCountFor_append (y m : Nat) (tr1 tr2 : List Req) :
    monthlyCountFor y m (tr1 ++ tr2) = monthlyCountFor y m tr1 + monthlyCountFor y m tr2 := by
  simp [monthlyCountFor, List.filter_append]

/-- A daily archive request never counts towards a monthly key. -/
theorem monthlyCountFor_daily (y m : Nat) (i : String) (y1 m1 d : Nat) :
    monthlyCountFor y m [Req.archiveReq i y1 m1 (some d)] = 0 := rfl

/-- A `download_klines` request never counts towards a monthly key. -/
theorem monthlyCountFor_api (y m : Nat) (i : String) (a b : DateTime) :
    monthlyCountFor y m [Req.apiReq i a b] = 0 := rfl

/-- Counting one monthly request. -/
theorem monthlyCountFor_monthly (y m : Nat) (i : String) (y1 m1 : Nat) :
    monthlyCountFor y m [Req.archiveReq i y1 m1 none] =
      if y1 = y ∧ m1 = m then 1 else 0 := by
  by_cases h : y1 = y ∧ m1 = m
  · rcases h with ⟨rfl, rfl⟩
    simp [monthlyCountFor, List.filter, Req.isMonthlyReqFor]
  · have hb : Req.isMonthlyReqFor y m (Req.archiveReq i y1 m1 none) = false := by
      rcases Bool.eq_false_or_eq_true (Req.isMonthlyReqFor y m (Req.archiveReq i y1 m1 none)) with ht | hf
      · exfalso
        apply h
        simpa [Req.isMonthlyReqFor, Bool.and_eq_true, decide_eq_true_eq] using ht
      · exact hf
    rw [if_neg h]
    simp [monthlyCountFor, List.filter, hb]

/-- Loop invariant of the daily loop: provided the monthly archive for
`(y, m)` has data, a monthly request for `(y, m)` is recorded at most once,
and once recorded the key is cached in `downloaded_months`. -/
theorem dayLoop_monthly_invariant (archive : ArchiveEnv) (interval : String)
    (st en : DateTime) (endD : Date) (y m : Nat)
    (hnon : archive y m none ≠ []) :
    ∀ (fuel : Nat) (cur : Date) (s : RState),
      monthlyCountFor y m s.trace ≤ 1 →
      (1 ≤ monthlyCountFor y m s.trace → (y, m) ∈ s.months) →
      monthlyCountFor y m (dayLoop archive interval st en endD fuel cur s).trace ≤ 1 ∧
        (1 ≤ monthlyCountFor y m (dayLoop archive interval st en endD fuel cur s).trace →
          (y, m) ∈ (dayLoop archive interval st en endD fuel cur s).months) := by
  intro fuel
  induction fuel with
  | zero => intro cur s h1 h2; exact ⟨h1, h2⟩
  | succ f ih =>
    intro cur s h1 h2
    rw [dayLoop]
    split
    · dsimp only
      by_cases hd : archive cur.year cur.month (some cur.day) ≠ []
      · rw [if_pos hd]
        refine ih cur.nextDay _ ?_ ?_ <;>
          dsimp only <;>
          simp only [monthlyCountFor_append, monthlyCountFor_daily]
        · omega
        · intro hc
          exact h2 (by omega)
      · rw [if_neg hd]
        by_cases hmem : (cur.year, cur.month) ∈ s.months
        · rw [if_pos hmem]
          refine ih cur.nextDay _ ?_ ?_ <;>
            dsimp only <;>
            simp only [monthlyCountFor_append, monthlyCountFor_daily]
          · omega
          · intro hc
            exact h2 (by omega)
        · rw [if_neg hmem]
          by_cases hk : cur.year = y ∧ cur.month = m
          · rcases hk with ⟨hky, hkm⟩
            have hmb : archive cur.year cur.month none ≠ [] := by rw [hky, hkm]; exact hnon
            rw [if_pos hmb]
            have hc0 : monthlyCountFor y m s.trace = 0 := by
              by_contra hne
              exact hmem (by rw [hky, hkm]; exact h2 (by omega))
            refine ih cur.nextDay _ ?_ ?_ <;>
              dsimp only <;>
              simp only [monthlyCountFor_append, monthlyCountFor_daily, hc0,
                monthlyCountFor_monthly, if_pos (And.intro hky hkm)]
            · omega
            · intro _
              rw [← hky, ← hkm]
              exact List.mem_append_right _ (List.mem_singleton.mpr rfl)
          · have hz : monthlyCountFor y m [Req.archiveReq interval cur.year cur.month none] = 0 := by
              rw [monthlyCountFor_monthly, if_neg hk]
            by_cases hmb : archive cur.year cur.month none ≠ []
            · rw [if_pos hmb]
              refine ih cur.nextDay _ ?_ ?_ <;>
                dsimp only <;>
                simp only [monthlyCountFor_append, monthlyCountFor_daily, hz]
              · omega
              · intro hc
                exact List.mem_append_left _ (h2 (by omega))
            · rw [if_neg hmb]
              refine ih cur.nextDay _ ?_ ?_ <;>
                dsimp only <;>
                simp only [monthlyCountFor_append, monthlyCountFor_daily, hz]
              · omega
              · intro hc
                exact h2 (by omega)
    · exact ⟨h1, h2⟩

/-- C5 as written is false: with an empty archive, the monthly file for
(2024, 1) is requested twice in one sub-daily reconciliation over two days
of that month, because `downloaded_months` caches only *successful* monthly
downloads. -/
theorem claim_C5_counterexample :
    monthlyCountFor 2024 1
      (download_range_from_archive emptyArchive emptyApi "1m"
        ⟨⟨2024, 1, 1⟩, 0⟩ ⟨⟨2024, 1, 2⟩, 0⟩ false).2 = 2 := by decide

/-- C5 (amended): in the sub-daily path, for any (year, month) key whose
monthly archive request returns data, the monthly file is requested at most
once per reconciliation call; only successful monthly downloads are cached,
so a month whose request returns no bars may be re-requested on later days. -/
theorem claim_C5 (archive : ArchiveEnv) (api : ApiEnv) (interval : String)
    (st en : DateTime) (fb : Bool) (y m : Nat)
    (hsub : interval ∉ monthly_only_intervals)
    (hnon : archive y m none ≠ []) :
    monthlyCountFor y m (download_range_from_archive archive api interval st en fb).2 ≤ 1 := by
  have htr : (download_range_from_archive archive api interval st en fb).2 =
      (download_range_pre archive api interval st en fb).trace := rfl
  rw [htr]
  have harch : monthlyCountFor y m (archivePass archive interval st en).trace ≤ 1 := by
    unfold archivePass
    rw [if_neg hsub]
    exact (dayLoop_monthly_invariant archive interval st en _ y m hnon _ _ RState.init
      (by simp [RState.init, monthlyCountFor])
      (by simp [RState.init, monthlyCountFor])).1
  unfold download_range_pre
  dsimp only
  split
  · dsimp only
    rw [monthlyCountFor_append, monthlyCountFor_api]
    omega
  · exact harch

/-- An archive with monthly data but no daily files, for the C5 witness. -/
def monthOnlyArchive : ArchiveEnv := fun _ _ d =>
  match d with
  | none => [barAt 2024 1 15 0]
  | some _ => []

/-- Witness for the amended C5 on a two-day request over one month whose
monthly file has data. -/
theorem claim_C5_witness :
    ("1m" ∉ monthly_only_intervals) ∧ (monthOnlyArchive 2024 1 none ≠ []) ∧
    monthlyCountFor 2024 1
      (download_range_from_archive monthOnlyArchive emptyApi "1m"
        ⟨⟨2024, 1, 1⟩, 0⟩ ⟨⟨2024, 1, 2⟩, 0⟩ false).2 ≤ 1 :=
  ⟨by decide, by decide,
   claim_C5 monthOnlyArchive emptyApi "1m" ⟨⟨2024, 1, 1⟩, 0⟩ ⟨⟨2024, 1, 2⟩, 0⟩ false 2024 1
     (by decide) (by decide)⟩

/-! ## Claim C4 — monthly-only policy for daily-resolution intervals -/

/-- The source's month-advance idiom lands on the first of the next calendar
month, for any real month number. -/
theorem pyNextMonth_valid (y m d : Nat) (h1 : 1 ≤ m) (h2 : m ≤ 12) :
    Date.pyNextMonth ⟨y, m, d⟩ =
      if m = 12 then ⟨y + 1, 1, 1⟩ else ⟨y, m + 1, 1⟩ := by
  interval_cases m <;>
    by_cases hl : isLeapYear y = true <;>
    simp [Date.pyNextMonth, Date.addDays, Date.nextDay, daysInMonth, hl]

/-- One month step: the month index advances by one and the result is again
a valid first-of-month. -/
theorem pyNextMonth_step (dd : Date) (h1 : 1 ≤ dd.month) (h2 : dd.month ≤ 12) :
    dd.pyNextMonth.monthIdx = dd.monthIdx + 1 ∧ 1 ≤ dd.pyNextMonth.month ∧
      dd.pyNextMonth.month ≤ 12 ∧ dd.pyNextMonth.day = 1 := by
  rcases dd with ⟨y, m, d⟩
  rw [pyNextMonth_valid y m d h1 h2]
  by_cases hm : m = 12
  · simp [hm, Date.monthIdx]
    omega
  · simp [hm, Date.monthIdx]
    simp at h1 h2
    omega

/-- On first-of-month dates with real month numbers, the datetime order is
the month-index order. -/
theorem monthFirst_le_iff (a b : Date) (ha1 : 1 ≤ a.month) (ha2 : a.month ≤ 12)
    (hb1 : 1 ≤ b.month) (hb2 : b.month ≤ 12) (ha3 : a.day = 1) (hb3 : b.day = 1) :
    Date.le a b ↔ a.monthIdx ≤ b.monthIdx := by
  rcases a with ⟨ay, am, ad⟩
  rcases b with ⟨by1, bm, bd⟩
  unfold Date.le Date.monthIdx
  dsimp only
  dsimp only at ha1 ha2 hb1 hb2 ha3 hb3
  subst ha3
  subst hb3
  omega

/-- The month sequence the monthly loop walks, together with the archive
request it records per month. -/
def monthReqs (interval : String) (endM : Date) : Nat → Date → List Req
  | 0, _ => []
  | fuel + 1, cur =>
    if Date.le cur endM then
      Req.archiveReq interval cur.year cur.month none ::
        monthReqs interval endM fuel cur.pyNextMonth
    else []

/-- The monthly loop's trace is the per-month request list, one monthly
request per visited month, appended to the incoming trace. -/
theorem monthLoop_trace (archive : ArchiveEnv) (interval : String)
    (st en : DateTime) (startD endD endM : Date) :
    ∀ (fuel : Nat) (cur : Date) (s : RState),
      (monthLoop archive interval st en startD endD endM fuel cur s).trace =
        s.trace ++ monthReqs interval endM fuel cur := by
  intro fuel
  induction fuel with
  | zero => intro cur s; simp [monthLoop, monthReqs]
  | succ f ih =>
    intro cur s
    rw [monthLoop, monthReqs]
    split
    · rw [ih]
      dsimp only
      split <;> simp
    · simp

/-- One unfolding step of the month sequence. -/
theorem monthReqs_succ (interval : String) (endM cur : Date) (f : Nat)
    (hc : Date.le cur endM) :
    monthReqs interval endM (f + 1) cur =
      Req.archiveReq interval cur.year cur.month none ::
        monthReqs interval endM f cur.pyNextMonth := by
  rw [monthReqs, if_pos hc]

/-- The API fallback adds no archive request: the archive-request part of
the reconciler's trace is the archive pass's. -/
theorem download_range_pre_filter_archive (archive : ArchiveEnv) (api : ApiEnv)
    (interval : String) (st en : DateTime) (fb : Bool) :
    (download_range_pre archive api interval st en fb).trace.filter Req.isArchive =
      (archivePass archive interval st en).trace.filter Req.isArchive := by
  unfold download_range_pre
  dsimp only
  split
  · dsimp only
    rw [List.filter_append]
    simp [Req.isArchive]
  · rfl

/-- The reconciler's trace is the archive pass's trace, possibly followed by
one API request. -/
theorem download_range_pre_trace_cases (archive : ArchiveEnv) (api : ApiEnv)
    (interval : String) (st en : DateTime) (fb : Bool) :
    (download_range_pre archive api interval st en fb).trace =
        (archivePass archive interval st en).trace ∨
      ∃ aS aE, (download_range_pre archive api interval st en fb).trace =
        (archivePass archive interval st en).trace ++ [Req.apiReq interval aS aE] := by
  unfold download_range_pre
  dsimp only
  split
  · right
    exact ⟨_, _, rfl⟩
  · left
    rfl

/-- C4: for a daily-resolution interval (1d/3d/1w/1M) over a request range
spanning exactly three calendar months, the reconciler issues exactly three
archive requests — the monthly file of each of the three consecutive months —
and no per-day archive request at all. -/
theorem claim_C4 (archive : ArchiveEnv) (api : ApiEnv) (interval : String)
    (st en : DateTime) (fb : Bool)
    (hint : interval ∈ monthly_only_intervals)
    (hstv : st.date.Valid) (henv : en.date.Valid)
    (hspan : en.date.firstOfMonth.monthIdx = st.date.firstOfMonth.monthIdx + 2) :
    (download_range_from_archive archive api interval st en fb).2.filter Req.isArchive =
      [Req.archiveReq interval st.date.firstOfMonth.year st.date.firstOfMonth.month none,
       Req.archiveReq interval st.date.firstOfMonth.pyNextMonth.year
         st.date.firstOfMonth.pyNextMonth.month none,
       Req.archiveReq interval st.date.firstOfMonth.pyNextMonth.pyNextMonth.year
         st.date.firstOfMonth.pyNextMonth.pyNextMonth.month none] ∧
    st.date.firstOfMonth.pyNextMonth.monthIdx = st.date.firstOfMonth.monthIdx + 1 ∧
    st.date.firstOfMonth.pyNextMonth.pyNextMonth.monthIdx =
      st.date.firstOfMonth.monthIdx + 2 ∧
    (∀ r ∈ (download_range_from_archive archive api interval st en fb).2,
      r.isDailyArchive = false) := by
  have hM0m1 : 1 ≤ st.date.firstOfMonth.month := hstv.2.1
  have hM0m2 : st.date.firstOfMonth.month ≤ 12 := hstv.2.2.1
  have hM0d : st.date.firstOfMonth.day = 1 := rfl
  have hs1 := pyNextMonth_step st.date.firstOfMonth hM0m1 hM0m2
  have hs2 := pyNextMonth_step st.date.firstOfMonth.pyNextMonth hs1.2.1 hs1.2.2.1
  have hEm1 : 1 ≤ en.date.firstOfMonth.month := henv.2.1
  have hEm2 : en.date.firstOfMonth.month ≤ 12 := henv.2.2.1
  have hEd : en.date.firstOfMonth.day = 1 := rfl
  have c0 : Date.le st.date.firstOfMonth en.date.firstOfMonth :=
    (monthFirst_le_iff _ _ hM0m1 hM0m2 hEm1 hEm2 hM0d hEd).mpr (by omega)
  have c1 : Date.le st.date.firstOfMonth.pyNextMonth en.date.firstOfMonth :=
    (monthFirst_le_iff _ _ hs1.2.1 hs1.2.2.1 hEm1 hEm2 hs1.2.2.2 hEd).mpr (by omega)
  have c2 : Date.le st.date.firstOfMonth.pyNextMonth.pyNextMonth en.date.firstOfMonth :=
    (monthFirst_le_iff _ _ hs2.2.1 hs2.2.2.1 hEm1 hEm2 hs2.2.2.2 hEd).mpr (by omega)
  have hreqs : monthReqs interval en.date.firstOfMonth 3 st.date.firstOfMonth =
      [Req.archiveReq interval st.date.firstOfMonth.year st.date.firstOfMonth.month none,
       Req.archiveReq interval st.date.firstOfMonth.pyNextMonth.year
         st.date.firstOfMonth.pyNextMonth.month none,
       Req.archiveReq interval st.date.firstOfMonth.pyNextMonth.pyNextMonth.year
         st.date.firstOfMonth.pyNextMonth.pyNextMonth.month none] := by
    rw [show (3 : Nat) = 2 + 1 from rfl, monthReqs_succ interval _ _ 2 c0,
        show (2 : Nat) = 1 + 1 from rfl, monthReqs_succ interval _ _ 1 c1,
        show (1 : Nat) = 0 + 1 from rfl, monthReqs_succ interval _ _ 0 c2]
    rfl
  have htr : (archivePass archive interval st en).trace =
      monthReqs interval en.date.firstOfMonth 3 st.date.firstOfMonth := by
    unfold archivePass DateTime.floorDate
    dsimp only
    rw [if_pos hint, monthLoop_trace]
    rw [show en.date.firstOfMonth.monthIdx + 1 - st.date.firstOfMonth.monthIdx = 3 from by omega]
    simp [RState.init]
  refine ⟨?_, hs1.1, by omega, ?_⟩
  · rw [show (download_range_from_archive archive api interval st en fb).2 =
        (download_range_pre archive api interval st en fb).trace from rfl,
      download_range_pre_filter_archive, htr, hreqs]
    rfl
  · intro r hr
    rw [show (download_range_from_archive archive api interval st en fb).2 =
        (download_range_pre archive api interval st en fb).trace from rfl] at hr
    rcases download_range_pre_trace_cases archive api interval st en fb with hcase | ⟨aS, aE, hcase⟩
    · rw [hcase, htr, hreqs] at hr
      simp only [List.mem_cons, List.not_mem_nil, or_false] at hr
      rcases hr with rfl | rfl | rfl <;> rfl
    · rw [hcase, htr, hreqs] at hr
      simp only [List.mem_append, List.mem_cons, List.mem_singleton, List.not_mem_nil,
        or_false] at hr
      rcases hr with (rfl | rfl | rfl) | rfl <;> rfl

/-- Witness for C4 on a concrete 1d request from 2024-01-15 to 2024-03-10. -/
theorem claim_C4_witness :
    ("1d" ∈ monthly_only_intervals) ∧
    (⟨2024, 1, 15⟩ : Date).Valid ∧ (⟨2024, 3, 10⟩ : Date).Valid ∧
    (⟨2024, 3, 10⟩ : Date).firstOfMonth.monthIdx =
      (⟨2024, 1, 15⟩ : Date).firstOfMonth.monthIdx + 2 ∧
    (download_range_from_archive emptyArchive emptyApi "1d"
        ⟨⟨2024, 1, 15⟩, 0⟩ ⟨⟨2024, 3, 10⟩, 0⟩ false).2.filter Req.isArchive =
      [Req.archiveReq "1d" 2024 1 none, Req.archiveReq "1d" 2024 2 none,
       Req.archiveReq "1d" 2024 3 none] :=
  ⟨by decide, by decide, by decide, by decide,
   (claim_C4 emptyArchive emptyApi "1d" ⟨⟨2024, 1, 15⟩, 0⟩ ⟨⟨2024, 3, 10⟩, 0⟩ false
     (by decide) (by decide) (by decide) (by decide)).1⟩

/-! ## Claim C8 — fail-fast behaviour of the orchestrator -/

/-- The interval string a request was issued with. -/
def Req.interval : Req → String
  | .archiveReq i _ _ _ => i
  | .apiReq i _ _ => i

/-- Every monthly-loop request carries the call's interval. -/
theorem monthLoop_trace_interval (archive : ArchiveEnv) (interval : String)
    (st en : DateTime) (startD endD endM : Date) :
    ∀ (fuel : Nat) (cur : Date) (s : RState),
      (∀ r ∈ s.trace, r.interval = interval) →
      ∀ r ∈ (monthLoop archive interval st en startD endD endM fuel cur s).trace,
        r.interval = interval := by
  intro fuel
  induction fuel with
  | zero => intro cur s hs; exact hs
  | succ f ih =>
    intro cur s hs
    rw [monthLoop]
    split
    · apply ih
      intro r hr
      split at hr <;>
      · simp only [List.mem_append, List.mem_singleton] at hr
        rcases hr with h | h
        · exact hs r h
        · subst h; rfl
    · exact hs

/-- Every daily-loop request carries the call's interval. -/
theorem dayLoop_trace_interval (archive : ArchiveEnv) (interval : String)
    (st en : DateTime) (endD : Date) :
    ∀ (fuel : Nat) (cur : Date) (s : RState),
      (∀ r ∈ s.trace, r.interval = interval) →
      ∀ r ∈ (dayLoop archive interval st en endD fuel cur s).trace,
        r.interval = interval := by
  intro fuel
  induction fuel with
  | zero => intro cur s hs; exact hs
  | succ f ih =>
    intro cur s hs
    rw [dayLoop]
    split
    · apply ih
      intro r hr
      have hbase : ∀ x ∈ s.trace ++ [Req.archiveReq interval cur.year cur.month (some cur.day)],
          Req.interval x = interval := by
        intro x hx
        simp only [List.mem_append, List.mem_singleton] at hx
        rcases hx with h | h
        · exact hs x h
        · subst h; rfl
      split at hr
      · exact hbase r hr
      · split at hr
        · exact hbase r hr
        · dsimp only at hr
          split at hr <;>
          · simp only [List.mem_append, List.mem_singleton] at hr
            rcases hr with (h | h) | h
            · exact hs r h
            · subst h; rfl
            · subst h; rfl
    · exact hs

/-- Every request a reconciliation call issues carries its interval. -/
theorem download_range_pre_trace_interval (archive : ArchiveEnv) (api : ApiEnv)
    (interval : String) (st en : DateTime) (fb : Bool) :
    ∀ r ∈ (download_range_pre archive api interval st en fb).trace,
      r.interval = interval := by
  have harch : ∀ r ∈ (archivePass archive interval st en).trace, r.interval = interval := by
    unfold archivePass
    split
    · exact monthLoop_trace_interval archive interval st en _ _ _ _ _ RState.init
        (by simp [RState.init])
    · exact dayLoop_trace_interval archive interval st en _ _ _ RState.init
        (by simp [RState.init])
  unfold download_range_pre
  dsimp only
  split
  · intro r hr
    dsimp only at hr
    simp only [List.mem_append, List.mem_singleton] at hr
    rcases hr with h | h
    · exact harch r h
    · subst h; rfl
  · exact harch

/-- A per-pair download either rejects an unsupported interval before any
request, or issues only requests carrying its (supported) interval. -/
theorem downloadPairTrace_spec (archive : ArchiveEnv) (api : ApiEnv)
    (interval : String) (st en : DateTime) (ua : Bool) :
    (interval ∉ KLINE_INTERVALS →
      downloadPairTrace archive api interval st en ua =
        Except.error ("Invalid interval: " ++ interval)) ∧
    (∀ tr, downloadPairTrace archive api interval st en ua = Except.ok tr →
      ∀ r ∈ tr, r.interval = interval) := by
  constructor
  · intro h
    unfold downloadPairTrace
    rw [if_neg h]
  · intro tr htr r hr
    unfold downloadPairTrace at htr
    by_cases hv : interval ∈ KLINE_INTERVALS
    · rw [if_pos hv] at htr
      cases ua with
      | true =>
        rw [if_pos rfl] at htr
        cases htr
        exact download_range_pre_trace_interval archive api interval st en true r hr
      | false =>
        rw [if_neg (by simp)] at htr
        cases htr
        simp only [List.mem_singleton] at hr
        subst hr
        rfl
    · rw [if_neg hv] at htr
      cases htr

/-- The pair loop only ever accumulates requests with supported intervals. -/
theorem downloadPairsLoop_intervals (archive : ArchiveEnv) (api : ApiEnv)
    (st en : DateTime) (ua : Bool) :
    ∀ (pairs : List (String × String)) (acc : List Req),
      (∀ r ∈ acc, r.interval ∈ KLINE_INTERVALS) →
      ∀ r ∈ (downloadPairsLoop archive api st en ua acc pairs).2,
        r.interval ∈ KLINE_INTERVALS := by
  intro pairs
  induction pairs with
  | nil => intro acc h; exact h
  | cons p rest ih =>
    intro acc h
    rcases p with ⟨sym, itv⟩
    rw [downloadPairsLoop]
    rcases hcall : downloadPairTrace archive api itv st en ua with e | tr
    · exact h
    · have hv : itv ∈ KLINE_INTERVALS := by
        by_contra hnv
        rw [(downloadPairTrace_spec archive api itv st en ua).1 hnv] at hcall
        cases hcall
      apply ih
      intro r hr
      rcases List.mem_append.mp hr with hmem | hmem
      · exact h r hmem
      · rw [(downloadPairTrace_spec archive api itv st en ua).2 tr hcall r hmem]
        exact hv

/-- C8 as written is false: with intervals `["1h", "7x"]` the pipeline does
fail on the invalid interval `7x`, but only after the valid pair
`(BTCUSDT, 1h)` has already issued its network requests — the error does not
precede every pair's network activity. -/
theorem claim_C8_counterexample :
    (download_data emptyArchive emptyApi ["BTCUSDT"] ["1h", "7x"] "binance"
        ⟨⟨2024, 1, 1⟩, 0⟩ ⟨⟨2024, 1, 1⟩, 0⟩ true).1 =
      Except.error ("Invalid interval: 7x") ∧
    (download_data emptyArchive emptyApi ["BTCUSDT"] ["1h", "7x"] "binance"
        ⟨⟨2024, 1, 1⟩, 0⟩ ⟨⟨2024, 1, 1⟩, 0⟩ true).2 ≠ [] :=
  ⟨by decide, by decide⟩

/-- C8 (amended): an unsupported exchange or an invalid date range fails
fast with a descriptive error before any network request at all; an invalid
interval fails with a descriptive error before any network request *for the
pair that uses it* (every request ever issued carries a supported interval),
though requests for earlier symbol/interval pairs may already have been
issued. -/
theorem claim_C8 (archive : ArchiveEnv) (api : ApiEnv)
    (symbols intervals : List String) (exchange : String) (st en : DateTime)
    (ua : Bool) :
    (strLower exchange ≠ "binance" →
      download_data archive api symbols intervals exchange st en ua =
        (Except.error ("Only binance exchange is currently supported, got: " ++ exchange), [])) ∧
    (strLower exchange = "binance" → DateTime.lt en st →
      download_data archive api symbols intervals exchange st en ua =
        (Except.error ("Start date must be before or equal to end date"), [])) ∧
    (∀ r ∈ (download_data archive api symbols intervals exchange st en ua).2,
      r.interval ∈ KLINE_INTERVALS) := by
  refine ⟨?_, ?_, ?_⟩
  · intro h
    unfold download_data
    rw [if_pos h]
  · intro h1 h2
    unfold download_data
    rw [if_neg (not_not_intro h1), if_pos h2]
  · unfold download_data
    split
    · simp
    · split
      · simp
      · exact downloadPairsLoop_intervals archive api st en ua _ [] (by simp)

/-- Witness for the amended C8: a wrong exchange, a reversed date range, and
one request of a valid call. -/
theorem claim_C8_witness :
    (strLower "KRAKEN" ≠ "binance" ∧
      download_data emptyArchive emptyApi ["BTCUSDT"] ["1h"] "KRAKEN"
          ⟨⟨2024, 1, 1⟩, 0⟩ ⟨⟨2024, 1, 2⟩, 0⟩ true =
        (Except.error ("Only binance exchange is currently supported, got: " ++ "KRAKEN"), [])) ∧
    (strLower "binance" = "binance" ∧
      DateTime.lt ⟨⟨2024, 1, 1⟩, 0⟩ ⟨⟨2024, 1, 2⟩, 0⟩ ∧
      download_data emptyArchive emptyApi ["BTCUSDT"] ["1h"] "binance"
          ⟨⟨2024, 1, 2⟩, 0⟩ ⟨⟨2024, 1, 1⟩, 0⟩ true =
        (Except.error ("Start date must be before or equal to end date"), [])) ∧
    (Req.archiveReq "1h" 2024 1 (some 1) ∈
        (download_data emptyArchive emptyApi ["BTCUSDT"] ["1h"] "binance"
          ⟨⟨2024, 1, 1⟩, 0⟩ ⟨⟨2024, 1, 1⟩, 0⟩ true).2 ∧
      (Req.archiveReq "1h" 2024 1 (some 1)).interval ∈ KLINE_INTERVALS) :=
  ⟨⟨by decide,
    (claim_C8 emptyArchive emptyApi ["BTCUSDT"] ["1h"] "KRAKEN"
      ⟨⟨2024, 1, 1⟩, 0⟩ ⟨⟨2024, 1, 2⟩, 0⟩ true).1 (by decide)⟩,
   ⟨by decide, by decide,
    (claim_C8 emptyArchive emptyApi ["BTCUSDT"] ["1h"] "binance"
      ⟨⟨2024, 1, 2⟩, 0⟩ ⟨⟨2024, 1, 1⟩, 0⟩ true).2.1 (by decide) (by decide)⟩,
   ⟨by decide,
    (claim_C8 emptyArchive emptyApi ["BTCUSDT"] ["1h"] "binance"
      ⟨⟨2024, 1, 1⟩, 0⟩ ⟨⟨2024, 1, 1⟩, 0⟩ true).2.2 (Req.archiveReq "1h" 2024 1 (some 1))
      (by decide)⟩⟩

/-! ## Claim C9 — termination of the kline paging loop -/

/-- One iteration of the paging loop either leaves the loop or strictly
advances the page start time. -/
theorem klinesStep_dichotomy (pages : Nat → PageResponse) (endTime cur : Nat)
    (acc : List ApiKline) :
    (∃ acc2, klinesStep pages endTime (KlinesState.running cur acc) =
      KlinesState.finished acc2) ∨
    (∃ cur2 acc2, klinesStep pages endTime (KlinesState.running cur acc) =
      KlinesState.running cur2 acc2 ∧ cur < cur2) := by
  rw [klinesStep]
  by_cases hc : cur < endTime
  · rw [if_pos hc]
    rcases hp : pages cur with _ | status | data
    · exact Or.inl ⟨acc, rfl⟩
    · exact Or.inl ⟨acc, rfl⟩
    · cases data with
      | nil => exact Or.inl ⟨acc, rfl⟩
      | cons k ks =>
        dsimp only
        by_cases hl : ((k :: ks).getLast (List.cons_ne_nil k ks)).openTime ≤ cur
        · rw [if_pos hl]
          exact Or.inl ⟨_, rfl⟩
        · rw [if_neg hl]
          exact Or.inr ⟨_, _, rfl, by omega⟩
  · rw [if_neg hc]
    exact Or.inl ⟨acc, rfl⟩

/-- The paging loop reaches a finished state within `endTime - cur + 1`
iterations: the start time strictly increases and is bounded by the end
time. -/
theorem klinesStep_terminates (pages : Nat → PageResponse) (endTime : Nat) :
    ∀ (k cur : Nat) (acc : List ApiKline), endTime - cur ≤ k →
      ∃ n, n ≤ k + 1 ∧
        ((klinesStep pages endTime)^[n] (KlinesState.running cur acc)).isFinished = true := by
  intro k
  induction k with
  | zero =>
    intro cur acc hk
    refine ⟨1, le_refl 1, ?_⟩
    rw [Function.iterate_one, klinesStep, if_neg (by omega)]
    rfl
  | succ kk ih =>
    intro cur acc hk
    rcases klinesStep_dichotomy pages endTime cur acc with ⟨acc2, hfin⟩ | ⟨cur2, acc2, hrun, hlt⟩
    · refine ⟨1, by omega, ?_⟩
      rw [Function.iterate_one, hfin]
      rfl
    · by_cases hstop : endTime ≤ cur
      · refine ⟨1, by omega, ?_⟩
        rw [Function.iterate_one, klinesStep, if_neg (by omega)]
        rfl
      · have hc : endTime - cur2 ≤ kk := by omega
        rcases ih cur2 acc2 hc with ⟨n, hn, hfin⟩
        refine ⟨n + 1, by omega, ?_⟩
        rw [Function.iterate_succ_apply, hrun]
        exact hfin

/-- C9: the paging loop of `download_klines` terminates for every sequence
of page responses — each iteration either stops (window exhausted, transport
error, non-200 status, empty page, or non-advancing last timestamp) or
strictly advances the page start time past the last returned bar, and a
finished state is reached within `endTime - start + 1` iterations. -/
theorem claim_C9 (pages : Nat → PageResponse) (endTime cur : Nat)
    (acc : List ApiKline) :
    ((∃ acc2, klinesStep pages endTime (KlinesState.running cur acc) =
        KlinesState.finished acc2) ∨
      (∃ cur2 acc2, klinesStep pages endTime (KlinesState.running cur acc) =
        KlinesState.running cur2 acc2 ∧ cur < cur2)) ∧
    (∃ n, n ≤ endTime - cur + 1 ∧
      ((klinesStep pages endTime)^[n] (KlinesState.running cur acc)).isFinished = true) :=
  ⟨klinesStep_dichotomy pages endTime cur acc,
   klinesStep_terminates pages endTime (endTime - cur) cur acc (le_refl _)⟩
